import Mathlib

/-!
Shallow embedding of `src/Mapper.ts` from the pallad-ts/mapper repository.

JavaScript property keys (`string | number | symbol`) are modelled by `Key`;
field values by `Value`, with `Value.undef` standing for JavaScript's
`undefined`.  ES `Map` objects (insertion-ordered, `set` updates an existing
key in place and otherwise appends) are modelled by association lists
(`JSMap`), and plain result objects (`data[k] = v` assignments) use the same
container, since every claim observes objects only through key lookup.
-/

/-- A JavaScript property key: a string, a number, or a symbol
(symbols are identified by a numeric id; only identity matters). -/
inductive Key where
  | str : String → Key
  | num : Int → Key
  | sym : Nat → Key
deriving DecidableEq, Repr

/-- JavaScript truthiness of a key: the empty string and the number 0 are
falsy; symbols are always truthy. -/
def Key.isFalsy : Key → Bool
  | .str "" => true
  | .num 0 => true
  | _ => false

/-- A field value.  `undef` is JavaScript's `undefined`; the other
constructors give enough concrete payloads for witnesses, and theorems
quantify over all of them. -/
inductive Value where
  | undef : Value
  | vstr : String → Value
  | vint : Int → Value
  | vbool : Bool → Value
deriving DecidableEq, Repr

/-- An ES `Map` (and a plain object used as a record): an insertion-ordered
association list with unique keys maintained by `set`. -/
abbrev JSMap (α : Type) := List (Key × α)

namespace JSMap

/-- Source `Map.prototype.get` / property read: first entry with the key. -/
def get {α : Type} : JSMap α → Key → Option α
  | [], _ => none
  | (k', v) :: rest, k => if k' = k then some v else get rest k

/-- Source `Map.prototype.set` / property write: update an existing key in place
(keeping its position) or append a new entry. -/
def set {α : Type} : JSMap α → Key → α → JSMap α
  | [], k, v => [(k, v)]
  | (k', v') :: rest, k, v =>
      if k' = k then (k, v) :: rest else (k', v') :: set rest k v

/-- Source `Map.prototype.keys` / `Object.keys`: keys in entry order. -/
def keys {α : Type} (m : JSMap α) : List Key := m.map Prod.fst

end JSMap

/-- A plain JavaScript object holding field values.  An entry `(k, Value.undef)`
means the key is present with value `undefined`; no entry means the key is
absent. -/
abbrev Obj := JSMap Value

namespace Obj

/-- Property read `obj[k]`: the stored value, or `undefined` when the key is
absent. -/
def read (o : Obj) (k : Key) : Value := (JSMap.get o k).getD Value.undef

/-- The JavaScript `in` operator: key presence, including keys explicitly
set to `undefined`. -/
def hasKey (o : Obj) (k : Key) : Bool := (JSMap.get o k).isSome

end Obj

/-- Source `Mapper.PartialMapping`: an optional pair of override hooks. -/
structure PartialMapping where
  toDark : Option (Obj → Obj)
  toLight : Option (Obj → Obj)

/-- The `options` argument of `registerMapping`. -/
structure RegisterOptions where
  toLightTransformer : Option (Value → Value)
  toDarkTransformer : Option (Value → Value)

/-- The `Mapper` class state.  Factories receive the assembled data and the
original source object. -/
structure Mapper where
  lightFactory : Option (Obj → Obj → Obj)
  darkFactory : Option (Obj → Obj → Obj)
  nameTransformer : Option (String → Key)
  fieldMap : JSMap Key
  reverseFieldMap : JSMap Key
  toLightTransformers : JSMap (Value → Value)
  toDarkTransformers : JSMap (Value → Value)
  partialMappings : List PartialMapping

namespace Mapper

/-- Source `Mapper.create()`: an empty mapper. -/
def create : Mapper :=
  { lightFactory := none
    darkFactory := none
    nameTransformer := none
    fieldMap := []
    reverseFieldMap := []
    toLightTransformers := []
    toDarkTransformers := []
    partialMappings := [] }

/-- Source `useFactory`: sets the light factory. -/
def useFactory (m : Mapper) (f : Obj → Obj → Obj) : Mapper :=
  { m with lightFactory := some f }

/-- Source `useLightFactory`: alias of `useFactory` (bound method). -/
def useLightFactory (m : Mapper) (f : Obj → Obj → Obj) : Mapper :=
  m.useFactory f

/-- Source `useDarkFactory`: sets the dark factory. -/
def useDarkFactory (m : Mapper) (f : Obj → Obj → Obj) : Mapper :=
  { m with darkFactory := some f }

/-- Source `useNameTransformer`: sets the name transformer. -/
def useNameTransformer (m : Mapper) (f : String → Key) : Mapper :=
  { m with nameTransformer := some f }

/-- Private `getDarkName`: for a string light name, apply the name
transformer when configured; every other key (and a string with no
transformer) maps to itself. -/
def getDarkName (m : Mapper) (lightName : Key) : Key :=
  match lightName with
  | .str s =>
      match m.nameTransformer with
      | some f => f s
      | none => .str s
  | k => k

/-- Source `registerMapping(lightName, darkName?, options?)`.  The source computes
`darkName ? darkName : this.getDarkName(lightName)`, so a missing *or falsy*
explicit dark name falls back to `getDarkName`. -/
def registerMapping (m : Mapper) (lightName : Key) (darkName : Option Key)
    (options : Option RegisterOptions) : Mapper :=
  let finalDarkName :=
    match darkName with
    | some d => if d.isFalsy then m.getDarkName lightName else d
    | none => m.getDarkName lightName
  let m := { m with
    fieldMap := m.fieldMap.set lightName finalDarkName
    reverseFieldMap := m.reverseFieldMap.set finalDarkName lightName }
  let m :=
    match options.bind (·.toDarkTransformer) with
    | some t => { m with toDarkTransformers := m.toDarkTransformers.set finalDarkName t }
    | none => m
  match options.bind (·.toLightTransformer) with
  | some t => { m with toLightTransformers := m.toLightTransformers.set lightName t }
  | none => m

/-- Source `usePartialMapping`: appends a hook pair to the ordered list. -/
def usePartialMapping (m : Mapper) (p : PartialMapping) : Mapper :=
  { m with partialMappings := m.partialMappings ++ [p] }

/-- Source `getDarkNameFromLightName`: `fieldMap.get`. -/
def getDarkNameFromLightName (m : Mapper) (lightName : Key) : Option Key :=
  m.fieldMap.get lightName

/-- Source `getLightNameFromDarkName`: `reverseFieldMap.get`. -/
def getLightNameFromDarkName (m : Mapper) (darkName : Key) : Option Key :=
  m.reverseFieldMap.get darkName

/-- Source `getLightNames`: keys of `fieldMap` in entry order. -/
def getLightNames (m : Mapper) : List Key := m.fieldMap.keys

/-- Source `getDarkNames`: keys of `reverseFieldMap` in entry order. -/
def getDarkNames (m : Mapper) : List Key := m.reverseFieldMap.keys

/-- Source `transformValueFromDark(darkName, value)`: the source looks up
`toLightTransformers.get(getLightNameFromDarkName(darkName)!)`; when the dark
name is unregistered the inner lookup yields `undefined`, which is never a
key of the transformer table, so no transformer is found and the value passes
through. -/
def transformValueFromDark (m : Mapper) (darkName : Key) (value : Value) : Value :=
  match m.getLightNameFromDarkName darkName with
  | none => value
  | some lightName =>
      match m.toLightTransformers.get lightName with
      | some t => t value
      | none => value

/-- Source `transformValueFromLight(lightName, value)`: symmetric, via
`getDarkNameFromLightName` then the `toDark` transformer table. -/
def transformValueFromLight (m : Mapper) (lightName : Key) (value : Value) : Value :=
  match m.getDarkNameFromLightName lightName with
  | none => value
  | some darkName =>
      match m.toDarkTransformers.get darkName with
      | some t => t value
      | none => value

/-- Source `mapToDark(light)`: per-field pass over `fieldMap`, then the `toDark`
hooks (each one replacing the accumulated data wholesale), then the dark
factory when configured. -/
def mapToDark (m : Mapper) (light : Obj) : Obj :=
  let data := m.fieldMap.foldl
    (fun (data : Obj) e => data.set e.2 (m.transformValueFromLight e.1 (light.read e.1))) []
  let data := m.partialMappings.foldl
    (fun data pm =>
      match pm.toDark with
      | some f => f light
      | none => data) data
  match m.darkFactory with
  | some f => f data light
  | none => data

/-- Source `mapPartialToDark(light, useFactory = false)`: like `mapToDark` but a
field is copied only when `lightName in light`; the factory runs only when
`useFactory` is set and a dark factory exists. -/
def mapPartialToDark (m : Mapper) (light : Obj) (useFactory : Bool := false) : Obj :=
  let data := m.fieldMap.foldl
    (fun (data : Obj) e =>
      if light.hasKey e.1 then
        data.set e.2 (m.transformValueFromLight e.1 (light.read e.1))
      else data) []
  let data := m.partialMappings.foldl
    (fun data pm =>
      match pm.toDark with
      | some f => f light
      | none => data) data
  match useFactory, m.darkFactory with
  | true, some f => f data light
  | _, _ => data

/-- Source `arrayMapToDark`: element-wise `mapToDark`. -/
def arrayMapToDark (m : Mapper) (values : List Obj) : List Obj :=
  values.map m.mapToDark

/-- Source `arrayMapPartialToDark`: element-wise `mapPartialToDark` with the same
`useFactory` flag. -/
def arrayMapPartialToDark (m : Mapper) (values : List Obj)
    (useFactory : Bool := false) : List Obj :=
  values.map (fun x => m.mapPartialToDark x useFactory)

/-- Source `mapPartialToLight(dark, useFactory = false)`: iterates `fieldMap` (not
`reverseFieldMap`), copying `data[lightName]` when `darkName in dark`. -/
def mapPartialToLight (m : Mapper) (dark : Obj) (useFactory : Bool := false) : Obj :=
  let data := m.fieldMap.foldl
    (fun (data : Obj) e =>
      if dark.hasKey e.2 then
        data.set e.1 (m.transformValueFromDark e.2 (dark.read e.2))
      else data) []
  let data := m.partialMappings.foldl
    (fun data pm =>
      match pm.toLight with
      | some f => f dark
      | none => data) data
  match useFactory, m.lightFactory with
  | true, some f => f data dark
  | _, _ => data

/-- Source `mapToLight(dark)`: the source iterates `fieldMap` pairs
`[lightName, darkName]`, setting
`data[lightName] = transformValueFromDark(darkName, dark[darkName])`, then
runs the `toLight` hooks and the light factory. -/
def mapToLight (m : Mapper) (dark : Obj) : Obj :=
  let data := m.fieldMap.foldl
    (fun (data : Obj) e => data.set e.1 (m.transformValueFromDark e.2 (dark.read e.2))) []
  let data := m.partialMappings.foldl
    (fun data pm =>
      match pm.toLight with
      | some f => f dark
      | none => data) data
  match m.lightFactory with
  | some f => f data dark
  | none => data

/-- Source `arrayMapToLight`: element-wise `mapToLight`. -/
def arrayMapToLight (m : Mapper) (values : List Obj) : List Obj :=
  values.map m.mapToLight

/-- Source `arrayMapPartialToLight`: element-wise `mapPartialToLight` with the same
`useFactory` flag. -/
def arrayMapPartialToLight (m : Mapper) (values : List Obj)
    (useFactory : Bool := false) : List Obj :=
  values.map (fun x => m.mapPartialToLight x useFactory)

end Mapper

/-! ### Named pieces and instrumented variants of the mapping operations -/

namespace Mapper

/-- The per-field pass of `mapToDark` (the first loop of the source method),
named so theorems can refer to the assembled data before hooks and factory. -/
def assembleToDark (m : Mapper) (light : Obj) : Obj :=
  m.fieldMap.foldl
    (fun (data : Obj) e => data.set e.2 (m.transformValueFromLight e.1 (light.read e.1))) []

/-- The per-field pass of `mapToLight` (the first loop of the source method). -/
def assembleToLight (m : Mapper) (dark : Obj) : Obj :=
  m.fieldMap.foldl
    (fun (data : Obj) e => data.set e.1 (m.transformValueFromDark e.2 (dark.read e.2))) []

/-- The per-field pass of `mapPartialToDark` (presence-guarded loop). -/
def assemblePartialToDark (m : Mapper) (light : Obj) : Obj :=
  m.fieldMap.foldl
    (fun (data : Obj) e =>
      if light.hasKey e.1 then
        data.set e.2 (m.transformValueFromLight e.1 (light.read e.1))
      else data) []

/-- Source `mapPartialToDark` instrumented with the list of dark-factory
invocations, each recorded as the `(assembledData, originalObject)` argument
pair; the factory call site in the source executes at most once, guarded by
`useFactory && this.darkFactory`. -/
def mapPartialToDarkTraced (m : Mapper) (light : Obj) (useFactory : Bool := false) :
    Obj × List (Obj × Obj) :=
  let data := m.fieldMap.foldl
    (fun (data : Obj) e =>
      if light.hasKey e.1 then
        data.set e.2 (m.transformValueFromLight e.1 (light.read e.1))
      else data) []
  let data := m.partialMappings.foldl
    (fun data pm =>
      match pm.toDark with
      | some f => f light
      | none => data) data
  match useFactory, m.darkFactory with
  | true, some f => (f data light, [(data, light)])
  | _, _ => (data, [])

/-- Source `arrayMapPartialToDark` instrumented with the concatenated dark-factory
invocation traces of its element-wise calls. -/
def arrayMapPartialToDarkTraced (m : Mapper) (values : List Obj)
    (useFactory : Bool := false) : List Obj × List (Obj × Obj) :=
  ((values.map (fun x => m.mapPartialToDarkTraced x useFactory)).map Prod.fst,
   ((values.map (fun x => m.mapPartialToDarkTraced x useFactory)).map Prod.snd).flatten)

/-!
State-threaded forms of the mapping operations.  The source methods read
`this.fieldMap`, `this.reverseFieldMap`, the transformer tables,
`this.partialMappings` and the factories, and assign only to the local
variable `data` — no method in the mapping group writes to any field of
`this` — so the threaded mapper state passes through unchanged.
-/

/-- Source `mapToDark` with the mapper state threaded through the call. -/
def mapToDarkSt (m : Mapper) (light : Obj) : Obj × Mapper :=
  (m.mapToDark light, m)

/-- Source `mapToLight` with the mapper state threaded through the call. -/
def mapToLightSt (m : Mapper) (dark : Obj) : Obj × Mapper :=
  (m.mapToLight dark, m)

/-- Source `mapPartialToDark` with the mapper state threaded through the call. -/
def mapPartialToDarkSt (m : Mapper) (light : Obj) (useFactory : Bool) : Obj × Mapper :=
  (m.mapPartialToDark light useFactory, m)

/-- Source `mapPartialToLight` with the mapper state threaded through the call. -/
def mapPartialToLightSt (m : Mapper) (dark : Obj) (useFactory : Bool) : Obj × Mapper :=
  (m.mapPartialToLight dark useFactory, m)

/-- Source `arrayMapToDark` with the mapper state threaded through the call. -/
def arrayMapToDarkSt (m : Mapper) (values : List Obj) : List Obj × Mapper :=
  (m.arrayMapToDark values, m)

/-- Source `arrayMapToLight` with the mapper state threaded through the call. -/
def arrayMapToLightSt (m : Mapper) (values : List Obj) : List Obj × Mapper :=
  (m.arrayMapToLight values, m)

/-- Source `arrayMapPartialToDark` with the mapper state threaded through the call. -/
def arrayMapPartialToDarkSt (m : Mapper) (values : List Obj) (useFactory : Bool) :
    List Obj × Mapper :=
  (m.arrayMapPartialToDark values useFactory, m)

/-- Source `arrayMapPartialToLight` with the mapper state threaded through the call. -/
def arrayMapPartialToLightSt (m : Mapper) (values : List Obj) (useFactory : Bool) :
    List Obj × Mapper :=
  (m.arrayMapPartialToLight values useFactory, m)

/-- Refinement model of the claim that `mapToLight` is driven by
`reverseFieldMap`: for every `(darkName, lightName)` entry of
`reverseFieldMap` set `result[lightName] =
transformValueFromDark(darkName, dark[darkName])`, then apply the `toLight`
hooks and the light factory.  Stated from the claim's words, to be compared
with `mapToLight` as translated from the source. -/
def mapToLightViaReverseFieldMap (m : Mapper) (dark : Obj) : Obj :=
  let data := m.reverseFieldMap.foldl
    (fun (data : Obj) e => data.set e.2 (m.transformValueFromDark e.1 (dark.read e.1))) []
  let data := m.partialMappings.foldl
    (fun data pm =>
      match pm.toLight with
      | some f => f dark
      | none => data) data
  match m.lightFactory with
  | some f => f data dark
  | none => data

end Mapper

/-- One `registerMapping` call in a configuration sequence. -/
structure RegCall where
  lightName : Key
  darkName : Option Key
  options : Option RegisterOptions

/-- The dark name a `registerMapping` call resolves to against mapper state
`m` (the truthy explicit name, else `getDarkName`). -/
def resolveCall (m : Mapper) (c : RegCall) : Key :=
  match c.darkName with
  | some d => if d.isFalsy then m.getDarkName c.lightName else d
  | none => m.getDarkName c.lightName

/-- Apply a sequence of `registerMapping` calls from left to right. -/
def applyRegs (m : Mapper) (regs : List RegCall) : Mapper :=
  regs.foldl (fun m c => m.registerMapping c.lightName c.darkName c.options) m

/-! ### Basic association-list lemmas -/

namespace JSMap

theorem get_set_self {α : Type} (m : JSMap α) (k : Key) (v : α) :
    (m.set k v).get k = some v := by
  induction m with
  | nil => simp [set, get]
  | cons e rest ih =>
      obtain ⟨k', v'⟩ := e
      by_cases h : k' = k
      · subst h
        simp [set, get]
      · simp [set, get, h, ih]

theorem get_set_ne {α : Type} (m : JSMap α) {k k' : Key} (v : α) (h : k' ≠ k) :
    (m.set k' v).get k = m.get k := by
  induction m with
  | nil => simp [set, get, h]
  | cons e rest ih =>
      obtain ⟨k₀, v₀⟩ := e
      by_cases h0 : k₀ = k'
      · subst h0
        simp [set, get, h]
      · by_cases h1 : k₀ = k
        · subst h1
          simp [set, get, h0]
        · simp [set, get, h0, h1, ih]

theorem mem_of_get_eq_some {α : Type} {m : JSMap α} {k : Key} {v : α}
    (h : m.get k = some v) : (k, v) ∈ m := by
  induction m with
  | nil => simp [get] at h
  | cons e rest ih =>
      obtain ⟨k₀, v₀⟩ := e
      by_cases h0 : k₀ = k
      · subst h0
        simp [get] at h
        simp [h]
      · simp [get, h0] at h
        exact List.mem_cons_of_mem _ (ih h)

end JSMap

/-! ### C8: unregistered names degrade to identity -/

/-- C8: for a light name absent from `fieldMap`, `transformValueFromLight`
returns the value unchanged, and symmetrically `transformValueFromDark` for a
dark name absent from `reverseFieldMap`; neither operation can fail. -/
theorem transform_unregistered_identity (m : Mapper) (k : Key) (v : Value) :
    (m.fieldMap.get k = none → m.transformValueFromLight k v = v) ∧
    (m.reverseFieldMap.get k = none → m.transformValueFromDark k v = v) := by
  constructor
  · intro h
    simp [Mapper.transformValueFromLight, Mapper.getDarkNameFromLightName, h]
  · intro h
    simp [Mapper.transformValueFromDark, Mapper.getLightNameFromDarkName, h]

/-- Witness for C8 at the empty mapper and a concrete name and value. -/
theorem transform_unregistered_identity_witness :
    (Mapper.create.fieldMap.get (.str "zz") = none ∧
      Mapper.create.transformValueFromLight (.str "zz") (.vint 5) = .vint 5) ∧
    (Mapper.create.reverseFieldMap.get (.num 7) = none ∧
      Mapper.create.transformValueFromDark (.num 7) (.vstr "q") = .vstr "q") :=
  ⟨⟨rfl, (transform_unregistered_identity Mapper.create (.str "zz") (.vint 5)).1 rfl⟩,
   ⟨rfl, (transform_unregistered_identity Mapper.create (.num 7) (.vstr "q")).2 rfl⟩⟩

/-! ### C5: dark-name resolution precedence in `registerMapping` -/

/-- C5: `registerMapping` resolves the dark name with precedence: a truthy
explicit dark name wins; otherwise string light names go through the name
transformer when one is configured; otherwise the light name itself is used.
Numeric and symbolic light keys always resolve to themselves under the
fallback, even when a name transformer is installed. -/
theorem registerMapping_darkName_resolution (m : Mapper) (l : Key)
    (dn : Option Key) (opts : Option RegisterOptions) :
    ((m.registerMapping l dn opts).getDarkNameFromLightName l =
      some (match dn with
            | some d => if d.isFalsy then m.getDarkName l else d
            | none => m.getDarkName l)) ∧
    (∀ n : Int, m.getDarkName (.num n) = .num n) ∧
    (∀ s : Nat, m.getDarkName (.sym s) = .sym s) ∧
    (∀ f s, m.nameTransformer = some f → m.getDarkName (.str s) = f s) ∧
    (m.nameTransformer = none → ∀ s, m.getDarkName (.str s) = .str s) ∧
    (∀ n : Int,
      (m.registerMapping (.num n) none opts).getDarkNameFromLightName (.num n) =
        some (.num n)) := by
  have hreg : ∀ (l' : Key) (dn' : Option Key),
      (m.registerMapping l' dn' opts).getDarkNameFromLightName l' =
        some (match dn' with
              | some d => if d.isFalsy then m.getDarkName l' else d
              | none => m.getDarkName l') := by
    intro l' dn'
    unfold Mapper.registerMapping Mapper.getDarkNameFromLightName
    cases h1 : opts.bind (·.toDarkTransformer) <;>
      cases h2 : opts.bind (·.toLightTransformer) <;>
        simp [h1, h2, JSMap.get_set_self]
  refine ⟨hreg l dn, ?_, ?_, ?_, ?_, ?_⟩
  · intro n; rfl
  · intro s; rfl
  · intro f s h
    simp [Mapper.getDarkName, h]
  · intro h s
    simp [Mapper.getDarkName, h]
  · intro n
    simpa using hreg (.num n) none

/-- Witness for C5: with a name transformer installed, a numeric key still
resolves to itself, an explicit dark name wins, and the transformer governs
the string fallback. -/
theorem registerMapping_darkName_resolution_witness :
    (((Mapper.create.useNameTransformer (fun s => .str (s ++ "_d"))).registerMapping
        (.num 2) none none).getDarkNameFromLightName (.num 2) = some (.num 2)) ∧
    (((Mapper.create.useNameTransformer (fun s => .str (s ++ "_d"))).registerMapping
        (.str "a") (some (.str "x")) none).getDarkNameFromLightName (.str "a") =
      some (.str "x")) ∧
    ((Mapper.create.useNameTransformer (fun s => .str (s ++ "_d"))).nameTransformer =
        some (fun s => .str (s ++ "_d")) ∧
      (Mapper.create.useNameTransformer (fun s => .str (s ++ "_d"))).getDarkName
        (.str "b") = .str "b_d") := by
  refine ⟨?_, ?_, rfl, ?_⟩
  · exact (registerMapping_darkName_resolution
      (Mapper.create.useNameTransformer (fun s => .str (s ++ "_d")))
      (.num 2) none none).2.2.2.2.2 2
  · have h := (registerMapping_darkName_resolution
      (Mapper.create.useNameTransformer (fun s => .str (s ++ "_d")))
      (.str "a") (some (.str "x")) none).1
    simpa [Key.isFalsy] using h
  · exact (registerMapping_darkName_resolution
      (Mapper.create.useNameTransformer (fun s => .str (s ++ "_d")))
      (.str "b") none none).2.2.2.1 (fun s => .str (s ++ "_d")) "b" rfl

/-! ### C9: mapping operations do not change the mapper configuration -/

/-- C9: every mapping operation returns the mapper state unchanged (the
source methods assign only to a local variable, never to a field of `this`),
so every lookup — `getLightNames`, `getDarkNames` and both name lookups —
answers the same before and after any mapping call. -/
theorem mapping_ops_preserve_config (m : Mapper) (o : Obj) (os : List Obj)
    (u : Bool) (k : Key) :
    (m.mapToDarkSt o).2 = m ∧
    (m.mapToLightSt o).2 = m ∧
    (m.mapPartialToDarkSt o u).2 = m ∧
    (m.mapPartialToLightSt o u).2 = m ∧
    (m.arrayMapToDarkSt os).2 = m ∧
    (m.arrayMapToLightSt os).2 = m ∧
    (m.arrayMapPartialToDarkSt os u).2 = m ∧
    (m.arrayMapPartialToLightSt os u).2 = m ∧
    (m.mapToDarkSt o).2.fieldMap = m.fieldMap ∧
    (m.mapToDarkSt o).2.reverseFieldMap = m.reverseFieldMap ∧
    (m.mapToDarkSt o).2.toLightTransformers = m.toLightTransformers ∧
    (m.mapToDarkSt o).2.toDarkTransformers = m.toDarkTransformers ∧
    (m.mapToDarkSt o).2.partialMappings = m.partialMappings ∧
    (m.mapToDarkSt o).2.nameTransformer = m.nameTransformer ∧
    (m.mapToDarkSt o).2.lightFactory = m.lightFactory ∧
    (m.mapToDarkSt o).2.darkFactory = m.darkFactory ∧
    (m.mapToLightSt o).2.getLightNames = m.getLightNames ∧
    (m.mapToLightSt o).2.getDarkNames = m.getDarkNames ∧
    (m.mapToLightSt o).2.getDarkNameFromLightName k = m.getDarkNameFromLightName k ∧
    (m.mapToLightSt o).2.getLightNameFromDarkName k = m.getLightNameFromDarkName k :=
  ⟨rfl, rfl, rfl, rfl, rfl, rfl, rfl, rfl, rfl, rfl,
   rfl, rfl, rfl, rfl, rfl, rfl, rfl, rfl, rfl, rfl⟩

/-! ### C4: hook replacement semantics in `mapToDark` -/

/-- The hook phase of `mapToDark`: folding the `toDark` hooks over the
accumulated data equals applying the last defined `toDark` hook to the
original input, or keeping the data when no hook defines `toDark`. -/
theorem hooks_foldl_toDark (hooks : List PartialMapping) (light data : Obj) :
    hooks.foldl
      (fun data pm =>
        match pm.toDark with
        | some f => f light
        | none => data) data =
    (match (hooks.filterMap (·.toDark)).getLast? with
     | some f => f light
     | none => data) := by
  induction hooks generalizing data with
  | nil => rfl
  | cons pm rest ih =>
      cases h : pm.toDark with
      | none => simp [List.filterMap_cons, h, ih]
      | some f =>
          simp only [List.foldl_cons, h, List.filterMap_cons, ih]
          cases h2 : rest.filterMap (·.toDark) with
          | nil => simp
          | cons g l =>
              cases h3 : (g :: l).getLast? with
              | none => simp [List.getLast?_eq_none_iff] at h3
              | some gg => simp [h3]

/-- C4: in `mapToDark`, hooks defining `toDark` run in registration order on
the original light object, each replacing the accumulated result wholesale;
hooks without `toDark` are skipped without clearing it; the last defined
`toDark` hook determines the pre-factory result, and a configured dark
factory is applied to that replaced result. -/
theorem mapToDark_hooks_last_wins (m : Mapper) (light : Obj) :
    (∀ f, (m.partialMappings.filterMap (·.toDark)).getLast? = some f →
      m.mapToDark light =
        (match m.darkFactory with
         | some g => g (f light) light
         | none => f light)) ∧
    ((m.partialMappings.filterMap (·.toDark)).getLast? = none →
      m.mapToDark light =
        (match m.darkFactory with
         | some g => g (m.assembleToDark light) light
         | none => m.assembleToDark light)) := by
  have key : m.mapToDark light =
      (match m.darkFactory with
       | some g => g (match (m.partialMappings.filterMap (·.toDark)).getLast? with
                      | some f => f light
                      | none => m.assembleToDark light) light
       | none => (match (m.partialMappings.filterMap (·.toDark)).getLast? with
                  | some f => f light
                  | none => m.assembleToDark light)) := by
    rw [show m.mapToDark light =
        (match m.darkFactory with
         | some g => g (m.partialMappings.foldl
             (fun data pm =>
               match pm.toDark with
               | some f => f light
               | none => data) (m.assembleToDark light)) light
         | none => m.partialMappings.foldl
             (fun data pm =>
               match pm.toDark with
               | some f => f light
               | none => data) (m.assembleToDark light)) from rfl]
    rw [hooks_foldl_toDark]
  constructor
  · intro f hf
    rw [key, hf]
  · intro hf
    rw [key, hf]

/-- Witness for C4: two hooks — the first lacking `toDark`, the second
defining it — on a mapper with one field and a dark factory: the second
hook's output, passed through the factory, is the result. -/
theorem mapToDark_hooks_last_wins_witness :
    (Mapper.usePartialMapping
        (Mapper.usePartialMapping
          (Mapper.useDarkFactory
            (Mapper.registerMapping Mapper.create (.str "a") (some (.str "x")) none)
            (fun d _ => JSMap.set d (.str "tag") (.vbool true)))
          ⟨none, some (fun _ => [])⟩)
        ⟨some (fun _ => [(Key.str "h", Value.vint 9)]), none⟩).mapToDark
      [(.str "a", .vint 1)] =
      [(Key.str "h", Value.vint 9), (Key.str "tag", Value.vbool true)] := by
  have h := (mapToDark_hooks_last_wins
    (Mapper.usePartialMapping
        (Mapper.usePartialMapping
          (Mapper.useDarkFactory
            (Mapper.registerMapping Mapper.create (.str "a") (some (.str "x")) none)
            (fun d _ => JSMap.set d (.str "tag") (.vbool true)))
          ⟨none, some (fun _ => [])⟩)
        ⟨some (fun _ => [(Key.str "h", Value.vint 9)]), none⟩)
    [(.str "a", .vint 1)]).1 (fun _ => [(Key.str "h", Value.vint 9)]) rfl
  simpa [Mapper.usePartialMapping, Mapper.useDarkFactory, Mapper.registerMapping,
    Mapper.create, JSMap.set] using h

/-! ### C1: round trip for a two-field mapper without transformers -/

/-- C1: for a mapper configured with exactly the fields `a→x` and `b→y` and
no transformers, factories, or hooks, `mapToLight (mapToDark L)` agrees with
`L` at every key whenever `L` has exactly the keys `a` and `b`, and
`mapToDark (mapToLight D)` agrees with `D` at every key whenever `D` has
exactly the keys `x` and `y`. -/
theorem mapper_roundtrip_two_fields (m : Mapper) (a b x y : Key) (L D : Obj)
    (hab : a ≠ b) (hxy : x ≠ y)
    (hfm : m.fieldMap = [(a, x), (b, y)])
    (htd : m.toDarkTransformers = [])
    (htl : m.toLightTransformers = [])
    (hpm : m.partialMappings = [])
    (hdf : m.darkFactory = none)
    (hlf : m.lightFactory = none)
    (hL : ∀ k, (JSMap.get L k).isSome = true ↔ (k = a ∨ k = b))
    (hD : ∀ k, (JSMap.get D k).isSome = true ↔ (k = x ∨ k = y)) :
    (∀ k, JSMap.get (m.mapToLight (m.mapToDark L)) k = JSMap.get L k) ∧
    (∀ k, JSMap.get (m.mapToDark (m.mapToLight D)) k = JSMap.get D k) := by
  have tvfl_id : ∀ n v, m.transformValueFromLight n v = v := by
    intro n v
    unfold Mapper.transformValueFromLight
    cases h : m.getDarkNameFromLightName n with
    | none => rfl
    | some d => simp [htd, JSMap.get]
  have tvfd_id : ∀ n v, m.transformValueFromDark n v = v := by
    intro n v
    unfold Mapper.transformValueFromDark
    cases h : m.getLightNameFromDarkName n with
    | none => rfl
    | some d => simp [htl, JSMap.get]
  have hdark : ∀ o : Obj, m.mapToDark o = [(x, o.read a), (y, o.read b)] := by
    intro o
    simp only [Mapper.mapToDark, hfm, hpm, hdf, List.foldl_cons, List.foldl_nil]
    rw [tvfl_id, tvfl_id]
    simp [JSMap.set, hxy]
  have hlight : ∀ o : Obj, m.mapToLight o = [(a, o.read x), (b, o.read y)] := by
    intro o
    simp only [Mapper.mapToLight, hfm, hpm, hlf, List.foldl_cons, List.foldl_nil]
    rw [tvfd_id, tvfd_id]
    simp [JSMap.set, hab]
  constructor
  · intro k
    rw [hdark, hlight]
    obtain ⟨va, hva⟩ := Option.isSome_iff_exists.mp ((hL a).mpr (Or.inl rfl))
    obtain ⟨vb, hvb⟩ := Option.isSome_iff_exists.mp ((hL b).mpr (Or.inr rfl))
    have hreadx : Obj.read [(x, L.read a), (y, L.read b)] x = L.read a := by
      simp [Obj.read, JSMap.get]
    have hready : Obj.read [(x, L.read a), (y, L.read b)] y = L.read b := by
      simp [Obj.read, JSMap.get, hxy]
    rw [hreadx, hready]
    by_cases hka : k = a
    · subst hka
      simp [JSMap.get, Obj.read, hva]
    · by_cases hkb : k = b
      · subst hkb
        simp [JSMap.get, Obj.read, hvb, hab]
      · have hnone : JSMap.get L k = none := by
          cases h : JSMap.get L k with
          | none => rfl
          | some v =>
              have hmem := (hL k).mp (by simp [h])
              rcases hmem with h1 | h1
              · exact absurd h1 hka
              · exact absurd h1 hkb
        rw [hnone]
        simp [JSMap.get, Ne.symm hka, Ne.symm hkb]
  · intro k
    rw [hlight, hdark]
    obtain ⟨vx, hvx⟩ := Option.isSome_iff_exists.mp ((hD x).mpr (Or.inl rfl))
    obtain ⟨vy, hvy⟩ := Option.isSome_iff_exists.mp ((hD y).mpr (Or.inr rfl))
    have hreada : Obj.read [(a, D.read x), (b, D.read y)] a = D.read x := by
      simp [Obj.read, JSMap.get]
    have hreadb : Obj.read [(a, D.read x), (b, D.read y)] b = D.read y := by
      simp [Obj.read, JSMap.get, hab]
    rw [hreada, hreadb]
    by_cases hkx : k = x
    · subst hkx
      simp [JSMap.get, Obj.read, hvx]
    · by_cases hky : k = y
      · subst hky
        simp [JSMap.get, Obj.read, hvy, hxy]
      · have hnone : JSMap.get D k = none := by
          cases h : JSMap.get D k with
          | none => rfl
          | some v =>
              have hmem := (hD k).mp (by simp [h])
              rcases hmem with h1 | h1
              · exact absurd h1 hkx
              · exact absurd h1 hky
        rw [hnone]
        simp [JSMap.get, Ne.symm hkx, Ne.symm hky]

/-- Witness for C1: the mapper `{a→x, b→y}` built by two registrations,
round-tripping the concrete objects `{a: 1, b: 2}` and `{x: 3, y: 4}`. -/
theorem mapper_roundtrip_two_fields_witness :
    (JSMap.get
        (((Mapper.create.registerMapping (.str "a") (some (.str "x")) none).registerMapping
            (.str "b") (some (.str "y")) none).mapToLight
          (((Mapper.create.registerMapping (.str "a") (some (.str "x")) none).registerMapping
              (.str "b") (some (.str "y")) none).mapToDark
            [(.str "a", .vint 1), (.str "b", .vint 2)]))
        (.str "a") =
      JSMap.get [(Key.str "a", Value.vint 1), (Key.str "b", Value.vint 2)] (.str "a")) ∧
    (JSMap.get
        (((Mapper.create.registerMapping (.str "a") (some (.str "x")) none).registerMapping
            (.str "b") (some (.str "y")) none).mapToDark
          (((Mapper.create.registerMapping (.str "a") (some (.str "x")) none).registerMapping
              (.str "b") (some (.str "y")) none).mapToLight
            [(.str "x", .vint 3), (.str "y", .vint 4)]))
        (.str "y") =
      JSMap.get [(Key.str "x", Value.vint 3), (Key.str "y", Value.vint 4)] (.str "y")) := by
  have hkeys : ∀ (u v : Key) (s t : Value), u ≠ v →
      ∀ k, (JSMap.get [(u, s), (v, t)] k).isSome = true ↔ (k = u ∨ k = v) := by
    intro u v s t huv k
    by_cases h1 : u = k
    · subst h1
      simp [JSMap.get]
    · by_cases h2 : v = k
      · subst h2
        simp [JSMap.get, h1]
      · simp [JSMap.get, h1, h2, Ne.symm h1, Ne.symm h2]
  have h := mapper_roundtrip_two_fields
    ((Mapper.create.registerMapping (.str "a") (some (.str "x")) none).registerMapping
      (.str "b") (some (.str "y")) none)
    (.str "a") (.str "b") (.str "x") (.str "y")
    [(.str "a", .vint 1), (.str "b", .vint 2)]
    [(.str "x", .vint 3), (.str "y", .vint 4)]
    (by decide) (by decide) (by decide) rfl rfl rfl rfl rfl
    (hkeys _ _ _ _ (by decide)) (hkeys _ _ _ _ (by decide))
  exact ⟨h.1 (.str "a"), h.2 (.str "y")⟩

/-! ### C6: presence-based copying in `mapPartialToDark` -/

/-- The per-field pass of `mapPartialToDark` never writes a dark key that no
field maps to. -/
theorem partial_fold_get_not_mem (m : Mapper) (p : Obj) (fields : List (Key × Key))
    (d : Key) (hd : d ∉ fields.map Prod.snd) (data : Obj) :
    JSMap.get
      (fields.foldl
        (fun (data : Obj) e =>
          if p.hasKey e.1 then
            data.set e.2 (m.transformValueFromLight e.1 (p.read e.1))
          else data) data) d =
    JSMap.get data d := by
  induction fields generalizing data with
  | nil => rfl
  | cons e rest ih =>
      obtain ⟨k0, d0⟩ := e
      simp only [List.map_cons, List.mem_cons] at hd
      push_neg at hd
      obtain ⟨hd0, hdrest⟩ := hd
      simp only [List.foldl_cons]
      rw [ih hdrest]
      by_cases hp : p.hasKey k0
      · simp only [hp, if_pos]
        exact JSMap.get_set_ne data _ (fun h => hd0 h.symm)
      · simp [hp]

/-- The per-field pass of `mapPartialToDark`, observed at the dark name of a
registered light key: copied exactly when the light key is present. -/
theorem partial_fold_get (m : Mapper) (p : Obj) (fields : List (Key × Key)) (k d : Key)
    (hsnd : (fields.map Prod.snd).Nodup) (hkd : JSMap.get fields k = some d)
    (data : Obj) :
    JSMap.get
      (fields.foldl
        (fun (data : Obj) e =>
          if p.hasKey e.1 then
            data.set e.2 (m.transformValueFromLight e.1 (p.read e.1))
          else data) data) d =
    (if p.hasKey k then some (m.transformValueFromLight k (p.read k))
     else JSMap.get data d) := by
  induction fields generalizing data with
  | nil => simp [JSMap.get] at hkd
  | cons e rest ih =>
      obtain ⟨k0, d0⟩ := e
      simp only [List.map_cons, List.nodup_cons] at hsnd
      obtain ⟨hd0, hsndrest⟩ := hsnd
      by_cases hk0 : k0 = k
      · subst hk0
        have hd0d : d0 = d := by
          simpa [JSMap.get] using hkd
        subst hd0d
        simp only [List.foldl_cons]
        rw [partial_fold_get_not_mem m p rest d0 hd0]
        by_cases hp : p.hasKey k0
        · simp [hp, JSMap.get_set_self]
        · simp [hp]
      · have hkrest : JSMap.get rest k = some d := by
          simpa [JSMap.get, hk0] using hkd
        have hmem : (k, d) ∈ rest := JSMap.mem_of_get_eq_some hkrest
        have hd0d : d0 ≠ d := by
          intro h
          subst h
          exact hd0 (List.mem_map_of_mem Prod.snd hmem)
        simp only [List.foldl_cons]
        rw [ih hsndrest hkrest]
        by_cases hp0 : p.hasKey k0
        · simp only [hp0, if_pos]
          by_cases hp : p.hasKey k
          · simp [hp]
          · simp [hp, JSMap.get_set_ne data _ hd0d]
        · simp [hp0]

/-- C6: with no partial hooks and the default `useFactory = false`,
`mapPartialToDark` copies a registered field `k→d` into the result exactly
when `k` is a present key of the partial input: a key present with value
`undefined` is copied (to its dark name, transformed), while an absent key
contributes no entry at its dark name.  Dark names are assumed pairwise
distinct, as produced by collision-free registration. -/
theorem mapPartialToDark_presence (m : Mapper) (p : Obj) (k d : Key)
    (hpm : m.partialMappings = [])
    (hsnd : (m.fieldMap.map Prod.snd).Nodup)
    (hkd : m.fieldMap.get k = some d) :
    JSMap.get (m.mapPartialToDark p false) d =
      (if p.hasKey k then some (m.transformValueFromLight k (p.read k)) else none) := by
  have hbody : m.mapPartialToDark p false =
      m.fieldMap.foldl
        (fun (data : Obj) e =>
          if p.hasKey e.1 then
            data.set e.2 (m.transformValueFromLight e.1 (p.read e.1))
          else data) [] := by
    simp only [Mapper.mapPartialToDark, hpm, List.foldl_nil]
  rw [hbody, partial_fold_get m p m.fieldMap k d hsnd hkd []]
  rfl

/-- Witness for C6: `{firstName→first_name, lastName→last_name}` applied to
the partial `{firstName: 'Tom'}` has `first_name` set and no `last_name`
entry; a partial with `lastName` explicitly `undefined` copies it. -/
theorem mapPartialToDark_presence_witness :
    (JSMap.get
        (((Mapper.create.registerMapping (.str "firstName") (some (.str "first_name"))
              none).registerMapping (.str "lastName") (some (.str "last_name"))
            none).mapPartialToDark [(.str "firstName", .vstr "Tom")] false)
        (.str "first_name") = some (.vstr "Tom")) ∧
    (JSMap.get
        (((Mapper.create.registerMapping (.str "firstName") (some (.str "first_name"))
              none).registerMapping (.str "lastName") (some (.str "last_name"))
            none).mapPartialToDark [(.str "firstName", .vstr "Tom")] false)
        (.str "last_name") = none) ∧
    (JSMap.get
        (((Mapper.create.registerMapping (.str "firstName") (some (.str "first_name"))
              none).registerMapping (.str "lastName") (some (.str "last_name"))
            none).mapPartialToDark [(.str "lastName", Value.undef)] false)
        (.str "last_name") = some Value.undef) := by
  refine ⟨?_, ?_, ?_⟩
  · have h := mapPartialToDark_presence
      ((Mapper.create.registerMapping (.str "firstName") (some (.str "first_name"))
          none).registerMapping (.str "lastName") (some (.str "last_name")) none)
      [(.str "firstName", .vstr "Tom")] (.str "firstName") (.str "first_name")
      rfl (by decide) (by decide)
    simpa [Obj.hasKey, Obj.read, JSMap.get, Mapper.transformValueFromLight,
      Mapper.getDarkNameFromLightName] using h
  · have h := mapPartialToDark_presence
      ((Mapper.create.registerMapping (.str "firstName") (some (.str "first_name"))
          none).registerMapping (.str "lastName") (some (.str "last_name")) none)
      [(.str "firstName", .vstr "Tom")] (.str "lastName") (.str "last_name")
      rfl (by decide) (by decide)
    simpa [Obj.hasKey, JSMap.get] using h
  · have h := mapPartialToDark_presence
      ((Mapper.create.registerMapping (.str "firstName") (some (.str "first_name"))
          none).registerMapping (.str "lastName") (some (.str "last_name")) none)
      [(.str "lastName", Value.undef)] (.str "lastName") (.str "last_name")
      rfl (by decide) (by decide)
    simpa [Obj.hasKey, Obj.read, JSMap.get, Mapper.transformValueFromLight,
      Mapper.getDarkNameFromLightName] using h

/-! ### C7: factory invocation discipline of the partial dark mappers -/

/-- C7: `mapPartialToDark(p, true)` with a configured dark factory invokes
the factory exactly once, on the assembled partial result and the original
partial input, and returns its value; with the default `useFactory = false`
the factory is never invoked and the raw assembled result is returned;
`arrayMapPartialToDark` concatenates the per-element traces, so with the
factory configured and `useFactory = true` it invokes the factory once per
element, on that element's own assembled result. -/
theorem mapPartialToDark_factory_calls (m : Mapper) (p : Obj) (ps : List Obj)
    (f : Obj → Obj → Obj) (u : Bool) :
    ((m.mapPartialToDarkTraced p false).2 = [] ∧
     (m.mapPartialToDarkTraced p false).1 = m.mapPartialToDark p false) ∧
    (m.darkFactory = some f →
      m.mapPartialToDarkTraced p true =
        (f (m.mapPartialToDark p false) p, [(m.mapPartialToDark p false, p)])) ∧
    ((m.arrayMapPartialToDarkTraced ps u).2 =
      (ps.map (fun x => (m.mapPartialToDarkTraced x u).2)).flatten) ∧
    (m.darkFactory = some f →
      (m.arrayMapPartialToDarkTraced ps true).2 =
        ps.map (fun x => (m.mapPartialToDark x false, x))) := by
  have hfalse : ∀ q : Obj, m.mapPartialToDarkTraced q false = (m.mapPartialToDark q false, []) := by
    intro q
    cases hdf : m.darkFactory <;>
      simp [Mapper.mapPartialToDarkTraced, Mapper.mapPartialToDark, hdf]
  have htrue : m.darkFactory = some f →
      ∀ q : Obj, m.mapPartialToDarkTraced q true =
        (f (m.mapPartialToDark q false) q, [(m.mapPartialToDark q false, q)]) := by
    intro hdf q
    simp [Mapper.mapPartialToDarkTraced, Mapper.mapPartialToDark, hdf]
  refine ⟨⟨by rw [hfalse], by rw [hfalse]⟩, fun hdf => htrue hdf p, ?_, ?_⟩
  · simp only [Mapper.arrayMapPartialToDarkTraced, List.map_map]
    rfl
  · intro hdf
    induction ps with
    | nil => rfl
    | cons q qs ih =>
        simp only [Mapper.arrayMapPartialToDarkTraced, List.map_cons, List.flatten_cons,
          htrue hdf, List.singleton_append] at ih ⊢
        rw [ih]

/-- Witness for C7: a one-field mapper with a dark factory: the single
partial call with `useFactory = true` traces exactly one invocation with the
assembled data and original input, the default call traces none, and the
array call over two partials traces one invocation per element. -/
theorem mapPartialToDark_factory_calls_witness :
    (((Mapper.create.registerMapping (.str "a") (some (.str "x")) none).useDarkFactory
        (fun d _ => JSMap.set d (.str "wrapped") (.vbool true))).mapPartialToDarkTraced
      [(.str "a", .vint 1)] true =
      ([(Key.str "x", Value.vint 1), (Key.str "wrapped", Value.vbool true)],
       [([(Key.str "x", Value.vint 1)], [(Key.str "a", Value.vint 1)])])) ∧
    ((((Mapper.create.registerMapping (.str "a") (some (.str "x")) none).useDarkFactory
        (fun d _ => JSMap.set d (.str "wrapped") (.vbool true))).mapPartialToDarkTraced
      [(.str "a", .vint 1)] false).2 = []) ∧
    ((((Mapper.create.registerMapping (.str "a") (some (.str "x")) none).useDarkFactory
        (fun d _ => JSMap.set d (.str "wrapped") (.vbool true))).arrayMapPartialToDarkTraced
      [[(.str "a", .vint 1)], []] true).2 =
      [([(Key.str "x", Value.vint 1)], [(Key.str "a", Value.vint 1)]), ([], [])]) := by
  refine ⟨?_, ?_, ?_⟩
  · have h := (mapPartialToDark_factory_calls
      ((Mapper.create.registerMapping (.str "a") (some (.str "x")) none).useDarkFactory
        (fun d _ => JSMap.set d (.str "wrapped") (.vbool true)))
      [(.str "a", .vint 1)] [] (fun d _ => JSMap.set d (.str "wrapped") (.vbool true))
      true).2.1 rfl
    refine h.trans ?_
    have hdata : ((Mapper.create.registerMapping (.str "a") (some (.str "x"))
        none).useDarkFactory
          (fun d _ => JSMap.set d (.str "wrapped") (.vbool true))).mapPartialToDark
        [(.str "a", .vint 1)] false = [(Key.str "x", Value.vint 1)] := by decide
    rw [hdata]
    decide
  · exact (mapPartialToDark_factory_calls
      ((Mapper.create.registerMapping (.str "a") (some (.str "x")) none).useDarkFactory
        (fun d _ => JSMap.set d (.str "wrapped") (.vbool true)))
      [(.str "a", .vint 1)] [] (fun d _ => JSMap.set d (.str "wrapped") (.vbool true))
      true).1.1
  · have h := (mapPartialToDark_factory_calls
      ((Mapper.create.registerMapping (.str "a") (some (.str "x")) none).useDarkFactory
        (fun d _ => JSMap.set d (.str "wrapped") (.vbool true)))
      [] [[(.str "a", .vint 1)], []] (fun d _ => JSMap.set d (.str "wrapped") (.vbool true))
      true).2.2.2 rfl
    refine h.trans ?_
    have hdata1 : ((Mapper.create.registerMapping (.str "a") (some (.str "x"))
        none).useDarkFactory
          (fun d _ => JSMap.set d (.str "wrapped") (.vbool true))).mapPartialToDark
        [(.str "a", .vint 1)] false = [(Key.str "x", Value.vint 1)] := by decide
    have hdata2 : ((Mapper.create.registerMapping (.str "a") (some (.str "x"))
        none).useDarkFactory
          (fun d _ => JSMap.set d (.str "wrapped") (.vbool true))).mapPartialToDark
        [] false = [] := by decide
    simp [hdata1, hdata2]

/-! ### C10: two light keys sharing one dark name -/

/-- C10: with two distinct light keys `a`, `b` both mapped to the dark name
`x` (and no hooks or factory), `mapToDark` produces a single entry at `x`,
written once per colliding field in `fieldMap` order, so the later-registered
light key `b` supplies the surviving value; and since `toDark` transformers
are keyed by dark name, the transformer stored at `x` applies to values of
both light keys. -/
theorem mapToDark_dark_collision (m : Mapper) (a b x : Key) (t : Value → Value)
    (light : Obj) (v : Value)
    (hab : a ≠ b)
    (hfm : m.fieldMap = [(a, x), (b, x)])
    (ht : m.toDarkTransformers.get x = some t)
    (hpm : m.partialMappings = [])
    (hdf : m.darkFactory = none) :
    m.mapToDark light = [(x, t (light.read b))] ∧
    m.transformValueFromLight a v = t v ∧
    m.transformValueFromLight b v = t v := by
  have hget_a : m.getDarkNameFromLightName a = some x := by
    simp [Mapper.getDarkNameFromLightName, hfm, JSMap.get]
  have hget_b : m.getDarkNameFromLightName b = some x := by
    simp [Mapper.getDarkNameFromLightName, hfm, JSMap.get, hab]
  have htvfl : ∀ w, m.transformValueFromLight a w = t w ∧
      m.transformValueFromLight b w = t w := by
    intro w
    constructor <;> simp [Mapper.transformValueFromLight, hget_a, hget_b, ht]
  refine ⟨?_, (htvfl v).1, (htvfl v).2⟩
  simp only [Mapper.mapToDark, hfm, hpm, hdf, List.foldl_cons, List.foldl_nil]
  rw [(htvfl _).1, (htvfl _).2]
  simp [JSMap.set]

/-- Witness for C10: `a→x` registered with a transformer, then `b→x`; mapping
`{a: 1, b: 10}` yields `{x: 11}` (the transformer applied to `b`'s value),
and the transformer applies through either light key. -/
theorem mapToDark_dark_collision_witness :
    (((Mapper.create.registerMapping (.str "a") (some (.str "x"))
          (some ⟨none, some (fun w => match w with | .vint n => .vint (n + 1) | w => w)⟩)).registerMapping
        (.str "b") (some (.str "x")) none).mapToDark
      [(.str "a", .vint 1), (.str "b", .vint 10)] = [(Key.str "x", Value.vint 11)]) ∧
    (((Mapper.create.registerMapping (.str "a") (some (.str "x"))
          (some ⟨none, some (fun w => match w with | .vint n => .vint (n + 1) | w => w)⟩)).registerMapping
        (.str "b") (some (.str "x")) none).transformValueFromLight (.str "a") (.vint 5) =
      .vint 6) := by
  have h := mapToDark_dark_collision
    ((Mapper.create.registerMapping (.str "a") (some (.str "x"))
        (some ⟨none, some (fun w => match w with | .vint n => .vint (n + 1) | w => w)⟩)).registerMapping
      (.str "b") (some (.str "x")) none)
    (.str "a") (.str "b") (.str "x")
    (fun w => match w with | .vint n => .vint (n + 1) | w => w)
    [(.str "a", .vint 1), (.str "b", .vint 10)] (.vint 5)
    (by decide) (by decide) rfl rfl rfl
  exact ⟨h.1.trans (by decide), h.2.1.trans (by decide)⟩

/-! ### C2: the `reverseFieldMap ∘ fieldMap` invariant -/

/-- Counterexample to C2 as stated: after the registration sequence
`a→x, b→x` (a dark-name collision, explicitly included by the claim), the
light key `a` is registered with `fieldMap[a] = x`, yet
`reverseFieldMap[x] = b ≠ a`. -/
theorem reverse_fieldMap_invariant_cex :
    ((applyRegs Mapper.create
        [⟨.str "a", some (.str "x"), none⟩,
         ⟨.str "b", some (.str "x"), none⟩]).fieldMap.get (.str "a") =
      some (.str "x")) ∧
    ((applyRegs Mapper.create
        [⟨.str "a", some (.str "x"), none⟩,
         ⟨.str "b", some (.str "x"), none⟩]).reverseFieldMap.get (.str "x") =
      some (.str "b")) ∧
    Key.str "b" ≠ Key.str "a" := by
  decide

/-- Source `registerMapping` updates `fieldMap` and `reverseFieldMap` by a single
`set` each, at the resolved dark name, and leaves the name transformer
unchanged. -/
theorem registerMapping_maps (m : Mapper) (l : Key) (dn : Option Key)
    (o : Option RegisterOptions) :
    (m.registerMapping l dn o).fieldMap = m.fieldMap.set l (resolveCall m ⟨l, dn, o⟩) ∧
    (m.registerMapping l dn o).reverseFieldMap =
      m.reverseFieldMap.set (resolveCall m ⟨l, dn, o⟩) l ∧
    (m.registerMapping l dn o).nameTransformer = m.nameTransformer := by
  unfold Mapper.registerMapping resolveCall
  cases h1 : o.bind (·.toDarkTransformer) <;>
    cases h2 : o.bind (·.toLightTransformer) <;>
      simp [h1, h2]

/-- The resolved dark name of a call depends on the mapper only through its
name transformer. -/
theorem resolveCall_congr (m m' : Mapper) (c : RegCall)
    (h : m.nameTransformer = m'.nameTransformer) :
    resolveCall m c = resolveCall m' c := by
  unfold resolveCall Mapper.getDarkName
  cases c.darkName <;> cases c.lightName <;> simp [h]

/-- Induction core for the amended C2: folding the remaining calls over a
mapper whose tables were built by the already-processed calls preserves the
invariant, provided no two calls of the full sequence resolve distinct light
names to the same dark name. -/
theorem applyRegs_invariant (full : List RegCall)
    (hnc : ∀ c1 ∈ full, ∀ c2 ∈ full,
      resolveCall Mapper.create c1 = resolveCall Mapper.create c2 →
      c1.lightName = c2.lightName) :
    ∀ (rest processed : List RegCall) (m : Mapper),
      processed ++ rest = full →
      m.nameTransformer = none →
      (∀ k d, m.fieldMap.get k = some d →
        m.reverseFieldMap.get d = some k ∧
        ∃ c, c ∈ processed ∧ c.lightName = k ∧ resolveCall Mapper.create c = d) →
      ∀ k d, (applyRegs m rest).fieldMap.get k = some d →
        (applyRegs m rest).reverseFieldMap.get d = some k := by
  intro rest
  induction rest with
  | nil =>
      intro processed m hfull hnt hinv k d hk
      exact (hinv k d hk).1
  | cons c rest' ih =>
      intro processed m hfull hnt hinv k d hk
      have hmaps := registerMapping_maps m c.lightName c.darkName c.options
      have hres : resolveCall m ⟨c.lightName, c.darkName, c.options⟩ =
          resolveCall Mapper.create c := by
        have := resolveCall_congr m Mapper.create ⟨c.lightName, c.darkName, c.options⟩
          (by rw [hnt]; rfl)
        exact this
      have hcfull : c ∈ full := by
        rw [← hfull]
        exact List.mem_append_right _ (List.mem_cons_self c rest')
      have hstep : applyRegs m (c :: rest') =
          applyRegs (m.registerMapping c.lightName c.darkName c.options) rest' := rfl
      rw [hstep] at hk ⊢
      refine ih (processed ++ [c]) (m.registerMapping c.lightName c.darkName c.options)
        ?_ ?_ ?_ k d hk
      · rw [List.append_assoc, List.singleton_append]
        exact hfull
      · rw [hmaps.2.2, hnt]
      · intro k' d' hk'
        rw [hmaps.1] at hk'
        rw [hmaps.2.1]
        by_cases hlk : c.lightName = k'
        · subst hlk
          rw [JSMap.get_set_self] at hk'
          obtain rfl : resolveCall m ⟨c.lightName, c.darkName, c.options⟩ = d' :=
            Option.some_injective _ hk'
          refine ⟨JSMap.get_set_self _ _ _, c, ?_, rfl, ?_⟩
          · exact List.mem_append_right _ (List.mem_singleton_self c)
          · rw [← hres]
        · rw [JSMap.get_set_ne _ _ hlk] at hk'
          obtain ⟨hrev, c0, hc0mem, hc0light, hc0res⟩ := hinv k' d' hk'
          have hc0full : c0 ∈ full := by
            rw [← hfull]
            exact List.mem_append_left _ hc0mem
          have hne : resolveCall m ⟨c.lightName, c.darkName, c.options⟩ ≠ d' := by
            intro heq
            have : resolveCall Mapper.create c = resolveCall Mapper.create c0 := by
              rw [← hres, heq, hc0res]
            have hlight := hnc c hcfull c0 hc0full this
            rw [hlight, hc0light] at hlk
            exact hlk rfl
          rw [JSMap.get_set_ne _ _ hne]
          exact ⟨hrev, c0, List.mem_append_left _ hc0mem, hc0light, hc0res⟩

/-- C2 amended: after any sequence of `registerMapping` calls from an empty
mapper in which no two calls resolve *distinct* light names to the same dark
name (re-registering the same light name remains allowed),
`reverseFieldMap[fieldMap[k]] = k` holds for every registered light key `k`.
Under dark-name collisions the invariant fails, as the counterexample
shows. -/
theorem reverse_fieldMap_invariant_no_collision (regs : List RegCall) (k d : Key)
    (hnc : ∀ c1 ∈ regs, ∀ c2 ∈ regs,
      resolveCall Mapper.create c1 = resolveCall Mapper.create c2 →
      c1.lightName = c2.lightName)
    (hk : (applyRegs Mapper.create regs).fieldMap.get k = some d) :
    (applyRegs Mapper.create regs).reverseFieldMap.get d = some k := by
  refine applyRegs_invariant regs hnc regs [] Mapper.create rfl rfl ?_ k d hk
  intro k' d' hk'
  simp [Mapper.create, JSMap.get] at hk'

/-- Witness for the amended C2: the collision-free sequence
`a→x, b→y, a→z` (a re-registration of `a` with a new dark name, leaving a
stale reverse entry at `x`) still satisfies `reverseFieldMap[fieldMap[a]] =
a`. -/
theorem reverse_fieldMap_invariant_no_collision_witness :
    ((applyRegs Mapper.create
        [⟨.str "a", some (.str "x"), none⟩,
         ⟨.str "b", some (.str "y"), none⟩,
         ⟨.str "a", some (.str "z"), none⟩]).fieldMap.get (.str "a") =
      some (.str "z")) ∧
    ((applyRegs Mapper.create
        [⟨.str "a", some (.str "x"), none⟩,
         ⟨.str "b", some (.str "y"), none⟩,
         ⟨.str "a", some (.str "z"), none⟩]).reverseFieldMap.get (.str "z") =
      some (.str "a")) :=
  ⟨by decide,
   reverse_fieldMap_invariant_no_collision
     [⟨.str "a", some (.str "x"), none⟩,
      ⟨.str "b", some (.str "y"), none⟩,
      ⟨.str "a", some (.str "z"), none⟩]
     (.str "a") (.str "z") (by decide) (by decide)⟩

/-! ### C3: what drives the per-field pass of `mapToLight` -/

/-- Counterexample to C3 as stated: after registering `a→x` then `b→x`,
`reverseFieldMap` holds only the pair `x→b`, so a `reverseFieldMap`-driven
pass (as the claim describes, modelled by `mapToLightViaReverseFieldMap`)
would produce only the key `b` — but `mapToLight` of `{x: 1}` produces both
`a` and `b`, because the source iterates `fieldMap`. -/
theorem mapToLight_reverse_driven_cex :
    (((Mapper.create.registerMapping (.str "a") (some (.str "x")) none).registerMapping
        (.str "b") (some (.str "x")) none).mapToLight [(.str "x", .vint 1)] =
      [(Key.str "a", Value.vint 1), (Key.str "b", Value.vint 1)]) ∧
    (((Mapper.create.registerMapping (.str "a") (some (.str "x")) none).registerMapping
        (.str "b") (some (.str "x")) none).mapToLightViaReverseFieldMap
        [(.str "x", .vint 1)] =
      [(Key.str "b", Value.vint 1)]) ∧
    (((Mapper.create.registerMapping (.str "a") (some (.str "x")) none).registerMapping
        (.str "b") (some (.str "x")) none).mapToLight [(.str "x", .vint 1)] ≠
      ((Mapper.create.registerMapping (.str "a") (some (.str "x")) none).registerMapping
        (.str "b") (some (.str "x")) none).mapToLightViaReverseFieldMap
        [(.str "x", .vint 1)]) := by
  decide

/-- The per-field pass of `mapToLight` never writes a light key that no
field pair starts with. -/
theorem light_fold_get_not_mem (m : Mapper) (dark : Obj) (fields : List (Key × Key))
    (k : Key) (hk : k ∉ fields.map Prod.fst) (data : Obj) :
    JSMap.get
      (fields.foldl
        (fun (data : Obj) e => data.set e.1 (m.transformValueFromDark e.2 (dark.read e.2)))
        data) k =
    JSMap.get data k := by
  induction fields generalizing data with
  | nil => rfl
  | cons e rest ih =>
      obtain ⟨k0, d0⟩ := e
      simp only [List.map_cons, List.mem_cons] at hk
      push_neg at hk
      obtain ⟨hk0, hkrest⟩ := hk
      simp only [List.foldl_cons]
      rw [ih hkrest]
      exact JSMap.get_set_ne data _ (fun h => hk0 h.symm)

/-- The per-field pass of `mapToLight`, observed at a light key: the written
value comes from the `fieldMap` entry for that key. -/
theorem light_fold_get (m : Mapper) (dark : Obj) (fields : List (Key × Key)) (k : Key)
    (hfst : (fields.map Prod.fst).Nodup) (data : Obj) :
    JSMap.get
      (fields.foldl
        (fun (data : Obj) e => data.set e.1 (m.transformValueFromDark e.2 (dark.read e.2)))
        data) k =
    (match JSMap.get fields k with
     | some d => some (m.transformValueFromDark d (dark.read d))
     | none => JSMap.get data k) := by
  induction fields generalizing data with
  | nil => rfl
  | cons e rest ih =>
      obtain ⟨k0, d0⟩ := e
      simp only [List.map_cons, List.nodup_cons] at hfst
      obtain ⟨hk0, hfstrest⟩ := hfst
      by_cases hkk : k0 = k
      · subst hkk
        simp only [List.foldl_cons, JSMap.get, if_pos rfl]
        rw [light_fold_get_not_mem m dark rest k0 hk0]
        simp [JSMap.get_set_self]
      · simp only [List.foldl_cons, JSMap.get, if_neg hkk]
        rw [ih hfstrest]
        cases h : JSMap.get rest k with
        | some d => simp
        | none => simp [JSMap.get_set_ne data _ hkk]

/-- The hook phase of `mapToLight`, mirroring `hooks_foldl_toDark`. -/
theorem hooks_foldl_toLight (hooks : List PartialMapping) (dark data : Obj) :
    hooks.foldl
      (fun data pm =>
        match pm.toLight with
        | some f => f dark
        | none => data) data =
    (match (hooks.filterMap (·.toLight)).getLast? with
     | some f => f dark
     | none => data) := by
  induction hooks generalizing data with
  | nil => rfl
  | cons pm rest ih =>
      cases h : pm.toLight with
      | none => simp [List.filterMap_cons, h, ih]
      | some f =>
          simp only [List.foldl_cons, h, List.filterMap_cons, ih]
          cases h2 : rest.filterMap (·.toLight) with
          | nil => simp
          | cons g l =>
              cases h3 : (g :: l).getLast? with
              | none => simp [List.getLast?_eq_none_iff] at h3
              | some gg => simp [h3]

/-- C3 amended: the per-field pass of `mapToLight` is driven by `fieldMap`,
not `reverseFieldMap`: with no hooks or light factory, the result at a light
key `k` is `transformValueFromDark(fieldMap[k], dark[fieldMap[k]])` when `k`
is registered and absent otherwise — `reverseFieldMap` (stale entries
included) enters only through the transformer lookup inside
`transformValueFromDark`; the `toLight` hooks then replace the result
wholesale (last defined hook wins) and a configured light factory is applied
afterwards. -/
theorem mapToLight_fieldMap_driven (m : Mapper) (dark : Obj) (k : Key) :
    (m.partialMappings = [] → m.lightFactory = none →
      (m.fieldMap.map Prod.fst).Nodup →
      JSMap.get (m.mapToLight dark) k =
        (m.fieldMap.get k).map (fun d => m.transformValueFromDark d (dark.read d))) ∧
    (∀ f, (m.partialMappings.filterMap (·.toLight)).getLast? = some f →
      m.mapToLight dark =
        (match m.lightFactory with
         | some g => g (f dark) dark
         | none => f dark)) ∧
    ((m.partialMappings.filterMap (·.toLight)).getLast? = none →
      m.mapToLight dark =
        (match m.lightFactory with
         | some g => g (m.assembleToLight dark) dark
         | none => m.assembleToLight dark)) := by
  have key : m.mapToLight dark =
      (match m.lightFactory with
       | some g => g (match (m.partialMappings.filterMap (·.toLight)).getLast? with
                      | some f => f dark
                      | none => m.assembleToLight dark) dark
       | none => (match (m.partialMappings.filterMap (·.toLight)).getLast? with
                  | some f => f dark
                  | none => m.assembleToLight dark)) := by
    rw [show m.mapToLight dark =
        (match m.lightFactory with
         | some g => g (m.partialMappings.foldl
             (fun data pm =>
               match pm.toLight with
               | some f => f dark
               | none => data) (m.assembleToLight dark)) dark
         | none => m.partialMappings.foldl
             (fun data pm =>
               match pm.toLight with
               | some f => f dark
               | none => data) (m.assembleToLight dark)) from rfl]
    rw [hooks_foldl_toLight]
  refine ⟨?_, ?_, ?_⟩
  · intro hpm hlf hfst
    rw [key, hpm, hlf]
    simp only [List.filterMap_nil, List.getLast?_nil]
    unfold Mapper.assembleToLight
    rw [light_fold_get m dark m.fieldMap k hfst []]
    cases h : JSMap.get m.fieldMap k <;> simp [JSMap.get]
  · intro f hf
    rw [key, hf]
  · intro hf
    rw [key, hf]

/-- Witness for the amended C3, at the collision mapper of the
counterexample: the light key `a` survives in `mapToLight`'s output because
`fieldMap` still holds `a→x`, even though `reverseFieldMap[x] = b`. -/
theorem mapToLight_fieldMap_driven_witness :
    (JSMap.get
        (((Mapper.create.registerMapping (.str "a") (some (.str "x")) none).registerMapping
            (.str "b") (some (.str "x")) none).mapToLight [(.str "x", .vint 1)])
        (.str "a") = some (.vint 1)) ∧
    (((Mapper.create.registerMapping (.str "a") (some (.str "x")) none).registerMapping
        (.str "b") (some (.str "x")) none).reverseFieldMap.get (.str "x") =
      some (.str "b")) := by
  have h := (mapToLight_fieldMap_driven
    ((Mapper.create.registerMapping (.str "a") (some (.str "x")) none).registerMapping
      (.str "b") (some (.str "x")) none)
    [(.str "x", .vint 1)] (.str "a")).1 rfl rfl (by decide)
  exact ⟨h.trans (by decide), by decide⟩
